import Mathlib

/-!
# FTPserver: a shallow embedding of `main.c`

The C program is a single-connection FTP server.  Its command loop, handlers
and the C library calls they rely on are embedded as pure Lean functions:

* bytes are natural numbers, a C string is the list of its bytes before the
  terminating NUL, and a `char[]` whose stale tail can be read is the list of
  all its cells;
* the two `static` variables (`transfer_type`, and `old_name` of
  `handle_rename_command`) are threaded explicitly as `Globals`;
* every system call with an effect outside the process is recorded as an
  `Event`, in program order; the outcome of the calls whose result the code
  inspects is supplied by a `World` oracle;
* logging to stdout (`printf`) is not recorded.
-/

namespace FTPserver

/-! ## Bytes and C strings -/

abbrev Byte := Nat

/-- The bytes of an ASCII literal. -/
def bytes (s : String) : List Byte := s.toList.map Char.toNat

def CR : Byte := 13

def LF : Byte := 10

def SERVER_PORT : Nat := 21

def BUFFER_SIZE : Nat := 1024

/-- The global `restricted_dir` of `main.c`. -/
def restricted_dir : List Byte := bytes "/allowed_directory"

/-- The C string stored at the start of a memory region: the bytes before the
first NUL. -/
def cstr (mem : List Byte) : List Byte := mem.takeWhile (fun c => c != 0)

/-- The C string `mem + k`. -/
def cstr_at (mem : List Byte) (k : Nat) : List Byte := cstr (mem.drop k)

/-- `strncmp(a, b, n)` on the contents of two C strings (the end of a list is
the terminating NUL): the difference of the first pair of differing bytes among
the first `n`, and `0` when there is none. -/
def strncmp : List Byte → List Byte → Nat → Int
  | _, _, 0 => 0
  | [], [], _ + 1 => 0
  | [], b :: _, _ + 1 => 0 - (b : Int)
  | a :: _, [], _ + 1 => (a : Int)
  | a :: as, b :: bs, n + 1 => if a = b then strncmp as bs n else (a : Int) - (b : Int)

/-- `strstr(haystack, needle)`: the suffix of `haystack` starting at the first
occurrence of `needle`, `none` for `NULL`. -/
def strstr : List Byte → List Byte → Option (List Byte)
  | [], needle => if needle.isEmpty then some [] else none
  | h :: t, needle => if needle.isPrefixOf (h :: t) then some (h :: t) else strstr t needle

/-- `strcspn(s, reject)`: the length of the longest prefix of `s` with no byte
of `reject`. -/
def strcspn (s reject : List Byte) : Nat := (s.takeWhile (fun c => !reject.contains c)).length

/-- What `snprintf(dst, size, ...)` leaves in `dst` as a C string, given the
fully formatted output: at most `size - 1` bytes are kept. -/
def snprintf (size : Nat) (formatted : List Byte) : List Byte := formatted.take (size - 1)

/-! ## State, effects and environment -/

/-- The `static` variables of the program. `old_name` is the C string held in
the `static char old_name[BUFFER_SIZE]` of `handle_rename_command`. -/
structure Globals where
  transfer_type : Int
  old_name : List Byte
  deriving DecidableEq, Repr

/-- Static initialisation: `transfer_type = 0`, `old_name` zero-filled. -/
def Globals.init : Globals := { transfer_type := 0, old_name := [] }

/-- Calls with an effect outside the process. `write` and `close` are on the
client socket. -/
inductive Event where
  | write (data : List Byte)
  | fopen (path mode : List Byte)
  | fwrite (data : List Byte)
  | fclose
  | opendir (path : List Byte)
  | closedir
  | rename (old new : List Byte)
  | unlink (path : List Byte)
  | close
  deriving DecidableEq, Repr

/-- Outcomes of the calls made while one command is handled.
* `fopen_read p`: `none` when `fopen(p, "r"/"rb")` returns `NULL`, otherwise the
  successive results of `fread` on the stream;
* `fopen_write p`: whether `fopen(p, "w"/"wb")` returns a stream;
* `sock_read`: the successive results of `read(client_sock, data, 1024)` during
  an upload (an empty list stands for a return value `<= 0`);
* `opendir p`: `none` for `NULL`, otherwise the `d_name` of the successive
  `readdir` results;
* `rename`, `unlink`: the return value of the call. -/
structure World where
  fopen_read : List Byte → Option (List (List Byte))
  fopen_write : List Byte → Bool
  sock_read : List (List Byte)
  opendir : List Byte → Option (List (List Byte))
  rename : List Byte → List Byte → Int
  unlink : List Byte → Int

/-! ## The handlers -/

/-- `send_response`: one `write` of `strlen(response)` bytes. -/
def send_response (response : List Byte) : List Event := [Event.write response]

/-- `validate_path`, with the global `restricted_dir` as a parameter. -/
def validate_path (root path : List Byte) : Int :=
  if (strstr path (bytes "..")).isSome || (strstr path root).isNone then 0 else 1

def handle_user_command : List Event :=
  send_response (bytes "331 Username OK, need password.\r\n")

def handle_pass_command : List Event :=
  send_response (bytes "230 User logged in, proceed.\r\n")

def handle_list_command (root : List Byte) (w : World) : List Event :=
  send_response (bytes "150 Here comes the directory listing.\r\n") ++
  (match w.opendir root with
   | some entries =>
     [Event.opendir root] ++
     entries.flatMap (fun d_name =>
       send_response (snprintf BUFFER_SIZE (d_name ++ bytes "\r\n"))) ++
     [Event.closedir]
   | none =>
     [Event.opendir root] ++ send_response (bytes "550 Failed to open directory.\r\n")) ++
  send_response (bytes "226 Directory send OK.\r\n")

/-- `handle_type_command`; `buffer` is the whole command buffer. -/
def handle_type_command (g : Globals) (buffer : List Byte) : Globals × List Event :=
  if strncmp (cstr_at buffer 5) (bytes "A") 1 = 0 then
    ({ g with transfer_type := 1 }, send_response (bytes "200 Type set to A (ASCII mode).\r\n"))
  else if strncmp (cstr_at buffer 5) (bytes "I") 1 = 0 then
    ({ g with transfer_type := 0 }, send_response (bytes "200 Type set to I (Binary mode).\r\n"))
  else
    (g, send_response (bytes "504 Command not implemented for that parameter.\r\n"))

/-- The `for` loop of `handle_get_command` over one chunk (ASCII mode). -/
def get_for_loop : List Byte → List Event
  | [] => []
  | c :: rest =>
    (if c = LF then [Event.write [CR]] else []) ++ [Event.write [c]] ++ get_for_loop rest

/-- The `while` loop of `handle_get_command` over the successive results of
`fread(data, 1, sizeof(data), file)`; it stops at the first empty result. -/
def get_while_loop (transfer_type : Int) : List (List Byte) → List Event
  | [] => []
  | chunk :: rest =>
    let data := chunk.take BUFFER_SIZE
    if data.length > 0 then
      (if transfer_type = 1 then get_for_loop data else [Event.write data]) ++
        get_while_loop transfer_type rest
    else []

def handle_get_command (root : List Byte) (g : Globals) (w : World)
    (filename : List Byte) : List Event :=
  let file_path := snprintf BUFFER_SIZE (root ++ bytes "/" ++ filename)
  if validate_path root file_path = 0 then
    send_response (snprintf BUFFER_SIZE (bytes "550 Access denied.\r\n"))
  else
    let mode := if g.transfer_type = 0 then bytes "rb" else bytes "r"
    match w.fopen_read file_path with
    | none =>
      [Event.fopen file_path mode] ++
      send_response (snprintf BUFFER_SIZE (bytes "550 File not found or access denied.\r\n"))
    | some chunks =>
      [Event.fopen file_path mode] ++
      send_response (bytes "150 Opening data connection.\r\n") ++
      get_while_loop g.transfer_type chunks ++
      [Event.fclose] ++
      send_response (bytes "226 Transfer complete.\r\n")

/-- The `for` loop of `handle_put_command` over one chunk (ASCII mode). -/
def put_for_loop : List Byte → List Event
  | [] => []
  | c :: rest => (if c = CR then [] else [Event.fwrite [c]]) ++ put_for_loop rest

/-- The `while` loop of `handle_put_command` over the successive results of
`read(client_sock, data, sizeof(data))`; it stops at the first result `<= 0`. -/
def put_while_loop (transfer_type : Int) : List (List Byte) → List Event
  | [] => []
  | chunk :: rest =>
    let data := chunk.take BUFFER_SIZE
    if data.length > 0 then
      (if transfer_type = 1 then put_for_loop data else [Event.fwrite data]) ++
        put_while_loop transfer_type rest
    else []

def handle_put_command (root : List Byte) (g : Globals) (w : World)
    (filename : List Byte) : List Event :=
  let file_path := snprintf BUFFER_SIZE (root ++ bytes "/" ++ filename)
  if validate_path root file_path = 0 then
    send_response (snprintf BUFFER_SIZE (bytes "550 Access denied.\r\n"))
  else
    let mode := if g.transfer_type = 0 then bytes "wb" else bytes "w"
    if w.fopen_write file_path then
      [Event.fopen file_path mode] ++
      send_response (bytes "150 Ready to receive data.\r\n") ++
      put_while_loop g.transfer_type w.sock_read ++
      [Event.fclose] ++
      send_response (bytes "226 Transfer complete.\r\n")
    else
      [Event.fopen file_path mode] ++
      send_response (snprintf BUFFER_SIZE (bytes "550 Cannot create file.\r\n"))

/-- `handle_rename_command`; `buffer` is the whole command buffer. -/
def handle_rename_command (g : Globals) (w : World) (buffer : List Byte) :
    Globals × List Event :=
  if strncmp (cstr buffer) (bytes "RNFR") 4 = 0 then
    let old_name := snprintf BUFFER_SIZE (cstr_at buffer 5)
    let old_name := old_name.take (strcspn old_name (bytes "\r\n"))
    ({ g with old_name := old_name }, send_response (bytes "350 Ready for destination name.\r\n"))
  else if strncmp (cstr buffer) (bytes "RNTO") 4 = 0 then
    let new_name := snprintf BUFFER_SIZE (cstr_at buffer 5)
    let new_name := new_name.take (strcspn new_name (bytes "\r\n"))
    if w.rename g.old_name new_name = 0 then
      (g, [Event.rename g.old_name new_name] ++
        send_response (bytes "250 File renamed successfully.\r\n"))
    else
      (g, [Event.rename g.old_name new_name] ++ send_response (bytes "550 Rename failed.\r\n"))
  else (g, [])

def handle_delete_command (root : List Byte) (w : World) (filename : List Byte) : List Event :=
  let file_path := snprintf BUFFER_SIZE (root ++ bytes "/" ++ filename)
  if validate_path root file_path = 0 then
    send_response (snprintf BUFFER_SIZE (bytes "550 Access denied.\r\n"))
  else if w.unlink file_path = 0 then
    [Event.unlink file_path] ++
    send_response (snprintf BUFFER_SIZE (bytes "250 File deleted successfully.\r\n"))
  else
    [Event.unlink file_path] ++
    send_response (snprintf BUFFER_SIZE (bytes "550 File not found or cannot delete.\r\n"))

/-! ## The command loop -/

/-- The command buffer after `n = read(client_sock, buffer, sizeof(buffer) - 1)`
returned `data` and `buffer[n] = '\0'` was executed: the cells past the
terminator keep their earlier contents. -/
def recv (buffer data : List Byte) : List Byte :=
  data ++ [0] ++ buffer.drop (data.length + 1)

/-- The body of the `while` loop of `handle_client` after the terminator has
been stored: the `if`/`else if` chain on the command buffer. The last component
is `true` when the loop is left through `break`. -/
def dispatch (root : List Byte) (g : Globals) (w : World) (buffer : List Byte) :
    Globals × List Event × Bool :=
  if strncmp (cstr buffer) (bytes "USER") 4 = 0 then (g, handle_user_command, false)
  else if strncmp (cstr buffer) (bytes "PASS") 4 = 0 then (g, handle_pass_command, false)
  else if strncmp (cstr buffer) (bytes "LIST") 4 = 0 then (g, handle_list_command root w, false)
  else if strncmp (cstr buffer) (bytes "GET ") 4 = 0 then
    (g, handle_get_command root g w (cstr_at buffer 4), false)
  else if strncmp (cstr buffer) (bytes "PUT ") 4 = 0 then
    (g, handle_put_command root g w (cstr_at buffer 4), false)
  else if strncmp (cstr buffer) (bytes "TYPE") 4 = 0 then
    let r := handle_type_command g buffer
    (r.1, r.2, false)
  else if strncmp (cstr buffer) (bytes "RNFR") 4 = 0
      || strncmp (cstr buffer) (bytes "RNTO") 4 = 0 then
    let r := handle_rename_command g w buffer
    (r.1, r.2, false)
  else if strncmp (cstr buffer) (bytes "DELE ") 5 = 0 then
    (g, handle_delete_command root w (cstr_at buffer 5), false)
  else if strncmp (cstr buffer) (bytes "QUIT") 4 = 0 then
    (g, send_response (bytes "221 Goodbye.\r\n"), true)
  else (g, send_response (bytes "502 Command not implemented.\r\n"), false)

/-- One iteration of the command loop as seen from outside: what the `read` of
the loop condition returns (empty for a return value `<= 0`) and the outcomes of
the calls made while the command is handled. -/
structure Step where
  line : List Byte
  world : World

/-- The `while` loop of `handle_client`. -/
def handle_client_loop (root : List Byte) : List Step → Globals → List Byte →
    Globals × List Event
  | [], g, _ => (g, [])
  | s :: rest, g, buffer =>
    let data := s.line.take (BUFFER_SIZE - 1)
    if data.length > 0 then
      let buffer := recv buffer data
      let r := dispatch root g s.world buffer
      if r.2.2 then (r.1, r.2.1)
      else
        let r2 := handle_client_loop root rest r.1 buffer
        (r2.1, r.2.1 ++ r2.2)
    else (g, [])

/-- `handle_client`; `buffer` is the indeterminate initial content of the local
command buffer. -/
def handle_client (root : List Byte) (buffer : List Byte) (steps : List Step) (g : Globals) :
    Globals × List Event :=
  let r := handle_client_loop root steps g buffer
  (r.1, send_response (bytes "220 Welcome to Simple FTP Server\r\n") ++ r.2 ++ [Event.close])

/-- One accepted connection: the initial content of its command buffer and the
iterations of its command loop. -/
structure Conn where
  buffer : List Byte
  steps : List Step

/-- The accept loop of `main`: connections are served one after the other on the
same statics. -/
def accept_loop (root : List Byte) : List Conn → Globals → Globals × List Event
  | [], g => (g, [])
  | c :: rest, g =>
    let r := handle_client root c.buffer c.steps g
    let r2 := accept_loop root rest r.1
    (r2.1, r.2 ++ r2.2)

/-- `main` once the listening socket is set up. -/
def main (conns : List Conn) : Globals × List Event :=
  accept_loop restricted_dir conns Globals.init

/-! ## Observations on event traces -/

/-- The bytes the client receives: the data of the `write` calls, in order. -/
def written : List Event → List Byte
  | [] => []
  | Event.write data :: rest => data ++ written rest
  | _ :: rest => written rest

/-- The bytes that reach the open file: the data of the `fwrite` calls, in order. -/
def stored : List Event → List Byte
  | [] => []
  | Event.fwrite data :: rest => data ++ stored rest
  | _ :: rest => stored rest

/-! ## Definitions that follow the words of the specification

These are not translated from the code; the theorems compare the code with
them. -/

/-- Whitespace bytes: space, tab, CR, LF. -/
def isWhitespace (c : Byte) : Bool := c == 32 || c == 9 || c == CR || c == LF

/-- Specification §4.3: the verb is the leading whitespace-delimited token. -/
def spec_verb (line : List Byte) : List Byte := line.takeWhile (fun c => !isWhitespace c)

/-- Specification §4.3: the argument is the remainder of the line after the verb
and a single delimiter, with trailing CR/LF stripped. -/
def spec_argument (line : List Byte) : List Byte :=
  (((line.dropWhile (fun c => !isWhitespace c)).drop 1).reverse.dropWhile
    (fun c => c == CR || c == LF)).reverse

/-- Specification §6: the command set. -/
def spec_verbs : List (List Byte) :=
  [bytes "USER", bytes "PASS", bytes "TYPE", bytes "LIST", bytes "GET", bytes "PUT",
   bytes "RNFR", bytes "RNTO", bytes "DELE", bytes "QUIT"]

/-- Specification §4.2, encode in ASCII mode: a CR is emitted immediately before
every LF, all other bytes pass through unchanged. -/
def spec_encode_ascii : List Byte → List Byte
  | [] => []
  | c :: rest =>
    if c = LF then CR :: LF :: spec_encode_ascii rest else c :: spec_encode_ascii rest

/-- Specification §4.2, decode in ASCII mode: every CR is dropped. -/
def spec_decode_ascii (b : List Byte) : List Byte := b.filter (fun c => c != CR)

/-- The sequence with each CR LF pair replaced by LF. -/
def spec_crlf_to_lf : List Byte → List Byte
  | [] => []
  | [c] => [c]
  | c :: d :: rest =>
    if c = CR ∧ d = LF then LF :: spec_crlf_to_lf rest else c :: spec_crlf_to_lf (d :: rest)

/-- CRLF-normalized data, by position: every LF is immediately preceded by a CR
and every CR is immediately followed by an LF. -/
def crlf_paired (b : List Byte) : Prop :=
  (∀ i, b[i]? = some LF → ∃ j, i = j + 1 ∧ b[j]? = some CR) ∧
  (∀ i, b[i]? = some CR → b[i + 1]? = some LF)

/-- Executable check of CRLF-normalization: the data is a sequence of CR LF pairs
and of bytes that are neither CR nor LF. -/
def crlf_normalized : List Byte → Bool
  | [] => true
  | [c] => c != CR && c != LF
  | c :: d :: rest =>
    if c = CR ∧ d = LF then crlf_normalized rest
    else c != CR && c != LF && crlf_normalized (d :: rest)

/-- A way of splitting `content` into successive non-empty reads of at most
`BUFFER_SIZE` bytes. -/
def chunking (chunks : List (List Byte)) (content : List Byte) : Prop :=
  chunks.flatten = content ∧ ∀ c ∈ chunks, 0 < c.length ∧ c.length ≤ BUFFER_SIZE

/-- The literals the `strncmp` chain of `handle_client` compares the buffer with. -/
def command_prefixes : List (List Byte) :=
  [bytes "USER", bytes "PASS", bytes "LIST", bytes "GET ", bytes "PUT ", bytes "TYPE",
   bytes "RNFR", bytes "RNTO", bytes "DELE ", bytes "QUIT"]

/-! ## Concrete environments -/

/-- An environment in which every call fails. -/
def World.failing : World :=
  { fopen_read := fun _ => none, fopen_write := fun _ => false, sock_read := [],
    opendir := fun _ => none, rename := fun _ _ => -1, unlink := fun _ => -1 }

/-- An environment in which every call succeeds: files read as `chunks`, the
client uploads `upload`, the directory has the entries `entries`. -/
def World.serving (chunks upload entries : List (List Byte)) : World :=
  { fopen_read := fun _ => some chunks, fopen_write := fun _ => true, sock_read := upload,
    opendir := fun _ => some entries, rename := fun _ _ => 0, unlink := fun _ => 0 }

/-- A command buffer whose cells are all zero. -/
def zero_buffer : List Byte := List.replicate BUFFER_SIZE 0

/-- The argument `handle_rename_command` takes from what follows the verb and one
more byte: the bytes before the first NUL, CR or LF. -/
def line_argument (rest : List Byte) : List Byte :=
  rest.takeWhile (fun c => c != 0 && c != CR && c != LF)

/-! ## Lemmas on the C library model -/

theorem cstr_nonzero (mem : List Byte) : ∀ c ∈ cstr mem, c ≠ 0 := by
  intro c hc
  have := List.mem_takeWhile_imp hc
  simpa using this

theorem cstr_append_nul (l r : List Byte) : cstr (l ++ 0 :: r) = cstr l := by
  induction l with
  | nil => simp [cstr]
  | cons a as ih =>
    unfold cstr at ih ⊢
    by_cases h : a = 0
    · simp [h]
    · simp [List.takeWhile_cons, h, ih]

theorem cstr_recv (buffer line : List Byte) : cstr (recv buffer line) = cstr line := by
  simp [recv, cstr_append_nul]

theorem strncmp_cstr_eq_zero_iff (lit : List Byte) (hlit : ∀ c ∈ lit, c ≠ 0) :
    ∀ mem : List Byte, strncmp (cstr mem) lit lit.length = 0 ↔ lit <+: mem := by
  induction lit with
  | nil => intro mem; simp [strncmp]
  | cons b bs ih =>
    intro mem
    have hb : b ≠ 0 := hlit b (by simp)
    have hbs : ∀ c ∈ bs, c ≠ 0 := fun c hc => hlit c (by simp [hc])
    cases mem with
    | nil => simp [cstr, strncmp, hb]
    | cons a as =>
      by_cases ha : a = 0
      · subst ha
        simp [cstr, strncmp, hb]
      · have hc : cstr (a :: as) = a :: cstr as := by simp [cstr, List.takeWhile_cons, ha]
        rw [hc]
        simp only [List.length_cons, strncmp]
        by_cases hab : a = b
        · subst hab
          simp [ih hbs as, List.cons_prefix_cons]
        · have hne : ¬ ((a : Int) - (b : Int) = 0) := by
            intro h
            have h2 : (a : Int) = (b : Int) := by linarith
            exact hab (by exact_mod_cast h2)
          simp only [if_neg hab, List.cons_prefix_cons]
          constructor
          · intro h; exact absurd h hne
          · intro h; exact absurd h.1.symm hab

theorem prefix_append_nul (lit l r : List Byte) (hlit : ∀ c ∈ lit, c ≠ 0) :
    lit <+: l ++ 0 :: r ↔ lit <+: l := by
  induction lit generalizing l with
  | nil => simp
  | cons b bs ih =>
    have hb : b ≠ 0 := hlit b (by simp)
    have hbs : ∀ c ∈ bs, c ≠ 0 := fun c hc => hlit c (by simp [hc])
    cases l with
    | nil => simp [List.cons_prefix_cons, hb]
    | cons a as => simp [List.cons_prefix_cons, ih as hbs]

theorem strncmp_recv (buffer line lit : List Byte) (n : Nat) (hn : lit.length = n)
    (hlit : ∀ c ∈ lit, c ≠ 0) :
    strncmp (cstr (recv buffer line)) lit n = 0 ↔ lit <+: line := by
  subst hn
  rw [cstr_recv, strncmp_cstr_eq_zero_iff lit hlit]

theorem dispatch_recv (root : List Byte) (g : Globals) (w : World) (buffer line : List Byte) :
    dispatch root g w (recv buffer line) =
      if bytes "USER" <+: line then (g, handle_user_command, false)
      else if bytes "PASS" <+: line then (g, handle_pass_command, false)
      else if bytes "LIST" <+: line then (g, handle_list_command root w, false)
      else if bytes "GET " <+: line then
        (g, handle_get_command root g w (cstr_at (recv buffer line) 4), false)
      else if bytes "PUT " <+: line then
        (g, handle_put_command root g w (cstr_at (recv buffer line) 4), false)
      else if bytes "TYPE" <+: line then
        ((handle_type_command g (recv buffer line)).1,
          (handle_type_command g (recv buffer line)).2, false)
      else if bytes "RNFR" <+: line ∨ bytes "RNTO" <+: line then
        ((handle_rename_command g w (recv buffer line)).1,
          (handle_rename_command g w (recv buffer line)).2, false)
      else if bytes "DELE " <+: line then
        (g, handle_delete_command root w (cstr_at (recv buffer line) 5), false)
      else if bytes "QUIT" <+: line then (g, send_response (bytes "221 Goodbye.\r\n"), true)
      else (g, send_response (bytes "502 Command not implemented.\r\n"), false) := by
  have e : ∀ (lit : List Byte) (n : Nat), lit.length = n → (∀ c ∈ lit, c ≠ 0) →
      (strncmp (cstr (recv buffer line)) lit n = 0 ↔ lit <+: line) :=
    fun lit n hn hlit => strncmp_recv buffer line lit n hn hlit
  have e1 := e (bytes "USER") 4 (by decide) (by decide)
  have e2 := e (bytes "PASS") 4 (by decide) (by decide)
  have e3 := e (bytes "LIST") 4 (by decide) (by decide)
  have e4 := e (bytes "GET ") 4 (by decide) (by decide)
  have e5 := e (bytes "PUT ") 4 (by decide) (by decide)
  have e6 := e (bytes "TYPE") 4 (by decide) (by decide)
  have e7 := e (bytes "RNFR") 4 (by decide) (by decide)
  have e8 := e (bytes "RNTO") 4 (by decide) (by decide)
  have e9 := e (bytes "DELE ") 5 (by decide) (by decide)
  have e10 := e (bytes "QUIT") 4 (by decide) (by decide)
  simp only [dispatch, e1, e2, e3, e4, e5, e6, e7, e8, e9, e10, Bool.or_eq_true, decide_eq_true_eq]

theorem cstr_at_recv (buffer pre rest : List Byte) (k : Nat) (hk : pre.length = k) :
    cstr_at (recv buffer (pre ++ rest)) k = cstr rest := by
  subst hk
  simp [cstr_at, recv, cstr_append_nul]

/-! ## Lemmas on the transfer loops -/

theorem written_append (a b : List Event) : written (a ++ b) = written a ++ written b := by
  induction a with
  | nil => rfl
  | cons e es ih => cases e <;> simp [written, ih]

theorem stored_append (a b : List Event) : stored (a ++ b) = stored a ++ stored b := by
  induction a with
  | nil => rfl
  | cons e es ih => cases e <;> simp [stored, ih]

theorem spec_encode_ascii_append (a b : List Byte) :
    spec_encode_ascii (a ++ b) = spec_encode_ascii a ++ spec_encode_ascii b := by
  induction a with
  | nil => rfl
  | cons c cs ih => by_cases h : c = LF <;> simp [spec_encode_ascii, h, ih]

theorem written_get_for_loop (data : List Byte) :
    written (get_for_loop data) = spec_encode_ascii data := by
  induction data with
  | nil => rfl
  | cons c cs ih =>
    by_cases h : c = LF <;> simp [get_for_loop, spec_encode_ascii, h, written, ih]

theorem stored_put_for_loop (data : List Byte) :
    stored (put_for_loop data) = spec_decode_ascii data := by
  induction data with
  | nil => rfl
  | cons c cs ih =>
    unfold spec_decode_ascii at ih ⊢
    by_cases h : c = CR <;> simp [put_for_loop, h, stored, ih]

theorem written_get_while_loop_ascii (chunks : List (List Byte))
    (h : ∀ c ∈ chunks, 0 < c.length ∧ c.length ≤ BUFFER_SIZE) :
    written (get_while_loop 1 chunks) = spec_encode_ascii chunks.flatten := by
  induction chunks with
  | nil => rfl
  | cons c cs ih =>
    have hc := h c (by simp)
    have hcs : ∀ c ∈ cs, 0 < c.length ∧ c.length ≤ BUFFER_SIZE := fun x hx => h x (by simp [hx])
    simp [get_while_loop, List.take_of_length_le hc.2, hc.1, written_append,
      written_get_for_loop, spec_encode_ascii_append, ih hcs]

theorem written_get_while_loop_binary (chunks : List (List Byte))
    (h : ∀ c ∈ chunks, 0 < c.length ∧ c.length ≤ BUFFER_SIZE) :
    written (get_while_loop 0 chunks) = chunks.flatten := by
  induction chunks with
  | nil => rfl
  | cons c cs ih =>
    have hc := h c (by simp)
    have hcs : ∀ c ∈ cs, 0 < c.length ∧ c.length ≤ BUFFER_SIZE := fun x hx => h x (by simp [hx])
    simp [get_while_loop, List.take_of_length_le hc.2, hc.1, written, ih hcs]

theorem stored_put_while_loop_ascii (chunks : List (List Byte))
    (h : ∀ c ∈ chunks, 0 < c.length ∧ c.length ≤ BUFFER_SIZE) :
    stored (put_while_loop 1 chunks) = spec_decode_ascii chunks.flatten := by
  induction chunks with
  | nil => rfl
  | cons c cs ih =>
    have hc := h c (by simp)
    have hcs : ∀ c ∈ cs, 0 < c.length ∧ c.length ≤ BUFFER_SIZE := fun x hx => h x (by simp [hx])
    simp [put_while_loop, List.take_of_length_le hc.2, hc.1, stored_append,
      stored_put_for_loop, ih hcs, spec_decode_ascii]

theorem decode_eq_crlf_to_lf (b : List Byte) (h : crlf_normalized b = true) :
    spec_decode_ascii b = spec_crlf_to_lf b := by
  induction b using crlf_normalized.induct with
  | case1 => rfl
  | case2 c =>
    simp [crlf_normalized] at h
    simp [spec_decode_ascii, spec_crlf_to_lf, h.1]
  | case3 c d rest hcd ih =>
    simp [crlf_normalized, hcd] at h
    obtain ⟨hc, hd⟩ := hcd
    subst hc hd
    have := ih h
    simp [spec_decode_ascii, spec_crlf_to_lf, CR, LF] at this ⊢
    exact this
  | case4 c d rest hcd ih =>
    simp [crlf_normalized, hcd] at h
    have := ih h.2
    simp only [spec_decode_ascii] at this ⊢
    simp [spec_crlf_to_lf, hcd, h.1.1, ← this]

theorem encode_decode_normalized (b : List Byte) (h : crlf_normalized b = true) :
    spec_encode_ascii (spec_decode_ascii b) = b := by
  induction b using crlf_normalized.induct with
  | case1 => rfl
  | case2 c =>
    simp [crlf_normalized] at h
    simp [spec_decode_ascii, spec_encode_ascii, h.1, h.2]
  | case3 c d rest hcd ih =>
    simp [crlf_normalized, hcd] at h
    obtain ⟨hc, hd⟩ := hcd
    subst hc hd
    have := ih h
    simp [spec_decode_ascii, spec_encode_ascii, CR, LF] at this ⊢
    exact this
  | case4 c d rest hcd ih =>
    simp [crlf_normalized, hcd] at h
    have := ih h.2
    simp only [spec_decode_ascii] at this ⊢
    simp [spec_encode_ascii, h.1.1, h.1.2, this]

theorem crlf_paired_tail2 (rest : List Byte) (h : crlf_paired (CR :: LF :: rest)) :
    crlf_paired rest := by
  obtain ⟨h1, h2⟩ := h
  constructor
  · intro i hi
    obtain ⟨j, hj, hj2⟩ := h1 (i + 2) (by simpa using hi)
    have hji : j = i + 1 := by omega
    subst hji
    cases i with
    | zero => simp [CR, LF] at hj2
    | succ k => exact ⟨k, rfl, by simpa using hj2⟩
  · intro i hi
    have := h2 (i + 2) (by simpa using hi)
    simpa using this

theorem crlf_paired_tail (c : Byte) (rest : List Byte) (hc : c ≠ CR)
    (h : crlf_paired (c :: rest)) : crlf_paired rest := by
  obtain ⟨h1, h2⟩ := h
  constructor
  · intro i hi
    obtain ⟨j, hj, hj2⟩ := h1 (i + 1) (by simpa using hi)
    have hji : j = i := by omega
    subst hji
    cases j with
    | zero => simp at hj2; exact absurd hj2 hc
    | succ k => exact ⟨k, rfl, by simpa using hj2⟩
  · intro i hi
    have := h2 (i + 1) (by simpa using hi)
    simpa using this

theorem crlf_paired_head (c : Byte) (rest : List Byte) (h : crlf_paired (c :: rest)) :
    c ≠ LF ∧ (c = CR → ∃ rest2, rest = LF :: rest2) := by
  obtain ⟨h1, h2⟩ := h
  constructor
  · intro hc
    obtain ⟨j, hj, -⟩ := h1 0 (by simp [hc])
    omega
  · intro hc
    have := h2 0 (by simp [hc])
    cases rest with
    | nil => simp at this
    | cons d rest2 =>
      simp at this
      exact ⟨rest2, by rw [this]⟩

theorem crlf_normalized_of_paired (b : List Byte) (h : crlf_paired b) :
    crlf_normalized b = true := by
  induction b using crlf_normalized.induct with
  | case1 => rfl
  | case2 c =>
    have hh := crlf_paired_head c [] h
    have hc : c ≠ CR := by
      intro hc
      obtain ⟨r, hr⟩ := hh.2 hc
      simp at hr
    simp [crlf_normalized, hh.1, hc]
  | case3 c d rest hcd ih =>
    obtain ⟨hc, hd⟩ := hcd
    subst hc hd
    simp [crlf_normalized]
    exact ih (crlf_paired_tail2 rest h)
  | case4 c d rest hcd ih =>
    have hh := crlf_paired_head c (d :: rest) h
    have hc : c ≠ CR := by
      intro hc
      obtain ⟨r, hr⟩ := hh.2 hc
      simp at hr
      exact hcd ⟨hc, hr.1⟩
    simp [crlf_normalized, hcd, hc, hh.1]
    exact ih (crlf_paired_tail c (d :: rest) hc h)

theorem crlf_paired_of_normalized (b : List Byte) (h : crlf_normalized b = true) :
    crlf_paired b := by
  induction b using crlf_normalized.induct with
  | case1 => constructor <;> intro i hi <;> simp at hi
  | case2 c =>
    simp [crlf_normalized] at h
    constructor
    · intro i hi
      cases i with
      | zero => simp at hi; exact absurd hi h.2
      | succ k => simp at hi
    · intro i hi
      cases i with
      | zero => simp at hi; exact absurd hi h.1
      | succ k => simp at hi
  | case3 c d rest hcd ih =>
    simp [crlf_normalized, hcd] at h
    obtain ⟨hc, hd⟩ := hcd
    subst hc hd
    obtain ⟨h1, h2⟩ := ih h
    constructor
    · intro i hi
      match i with
      | 0 => simp [CR, LF] at hi
      | 1 => exact ⟨0, rfl, by simp⟩
      | k + 2 =>
        obtain ⟨j, hj, hj2⟩ := h1 k (by simpa using hi)
        exact ⟨j + 2, by omega, by simpa using hj2⟩
    · intro i hi
      match i with
      | 0 => simp
      | 1 => simp [CR, LF] at hi
      | k + 2 =>
        have := h2 k (by simpa using hi)
        simpa using this
  | case4 c d rest hcd ih =>
    simp [crlf_normalized, hcd] at h
    obtain ⟨h1, h2⟩ := ih h.2
    constructor
    · intro i hi
      match i with
      | 0 => simp at hi; exact absurd hi h.1.2
      | k + 1 =>
        obtain ⟨j, hj, hj2⟩ := h1 k (by simpa using hi)
        exact ⟨j + 1, by omega, by simpa using hj2⟩
    · intro i hi
      match i with
      | 0 => simp at hi; exact absurd hi h.1.1
      | k + 1 =>
        have := h2 k (by simpa using hi)
        simpa using this

theorem handle_get_command_open (root filename : List Byte) (g : Globals) (w : World)
    (chunks : List (List Byte))
    (hvalid : validate_path root (snprintf BUFFER_SIZE (root ++ bytes "/" ++ filename)) = 1)
    (hopen : w.fopen_read (snprintf BUFFER_SIZE (root ++ bytes "/" ++ filename)) = some chunks) :
    handle_get_command root g w filename =
      [Event.fopen (snprintf BUFFER_SIZE (root ++ bytes "/" ++ filename))
          (if g.transfer_type = 0 then bytes "rb" else bytes "r"),
        Event.write (bytes "150 Opening data connection.\r\n")] ++
      get_while_loop g.transfer_type chunks ++
      [Event.fclose, Event.write (bytes "226 Transfer complete.\r\n")] := by
  have hv : ¬ validate_path root (snprintf BUFFER_SIZE (root ++ bytes "/" ++ filename)) = 0 := by
    rw [hvalid]; decide
  unfold handle_get_command
  simp only [if_neg hv, hopen]
  simp [send_response]

/-! ## Lemmas on path validation -/

theorem strstr_isSome_iff (h n : List Byte) : (strstr h n).isSome = true ↔ n <:+: h := by
  induction h with
  | nil => cases n <;> simp [strstr]
  | cons a as ih =>
    unfold strstr
    by_cases hp : n.isPrefixOf (a :: as) = true
    · simp only [hp, if_true, Option.isSome_some, true_iff]
      exact (List.isPrefixOf_iff_prefix.1 hp).isInfix
    · simp only [hp, if_false, Bool.false_eq_true]
      rw [ih, List.infix_cons_iff]
      constructor
      · intro h; exact Or.inr h
      · rintro (h | h)
        · exact absurd (List.isPrefixOf_iff_prefix.2 h) hp
        · exact h

theorem validate_path_eq_zero_iff (root path : List Byte) :
    validate_path root path = 0 ↔ (bytes ".." <:+: path ∨ ¬ root <:+: path) := by
  unfold validate_path
  rw [← strstr_isSome_iff, ← strstr_isSome_iff]
  cases h1 : strstr path (bytes "..") <;> cases h2 : strstr path root <;> simp

theorem root_infix_joined (root rest : List Byte) (hroot : root.length < BUFFER_SIZE) :
    root <:+: snprintf BUFFER_SIZE (root ++ rest) := by
  unfold snprintf
  rw [List.take_append_eq_append_take, List.take_of_length_le (by omega)]
  exact (List.prefix_append _ _).isInfix

theorem validate_path_joined (root filename : List Byte) (hroot : root.length < BUFFER_SIZE) :
    validate_path root (snprintf BUFFER_SIZE (root ++ bytes "/" ++ filename)) = 0 ↔
      bytes ".." <:+: snprintf BUFFER_SIZE (root ++ bytes "/" ++ filename) := by
  rw [validate_path_eq_zero_iff]
  have := root_infix_joined root (bytes "/" ++ filename) hroot
  rw [← List.append_assoc] at this
  constructor
  · rintro (h | h)
    · exact h
    · exact absurd this h
  · intro h; exact Or.inl h

theorem handlers_denied (root filename : List Byte) (g : Globals) (w : World)
    (h : validate_path root (snprintf BUFFER_SIZE (root ++ bytes "/" ++ filename)) = 0) :
    handle_get_command root g w filename = send_response (bytes "550 Access denied.\r\n") ∧
    handle_put_command root g w filename = send_response (bytes "550 Access denied.\r\n") ∧
    handle_delete_command root w filename = send_response (bytes "550 Access denied.\r\n") := by
  unfold handle_get_command handle_put_command handle_delete_command
  simp only [h, if_true]
  refine ⟨?_, ?_, ?_⟩ <;> rfl

theorem handlers_proceed (root filename : List Byte) (g : Globals) (w : World)
    (h : ¬ validate_path root (snprintf BUFFER_SIZE (root ++ bytes "/" ++ filename)) = 0) :
    (handle_get_command root g w filename).head? =
      some (Event.fopen (snprintf BUFFER_SIZE (root ++ bytes "/" ++ filename))
        (if g.transfer_type = 0 then bytes "rb" else bytes "r")) ∧
    (handle_put_command root g w filename).head? =
      some (Event.fopen (snprintf BUFFER_SIZE (root ++ bytes "/" ++ filename))
        (if g.transfer_type = 0 then bytes "wb" else bytes "w")) ∧
    (handle_delete_command root w filename).head? =
      some (Event.unlink (snprintf BUFFER_SIZE (root ++ bytes "/" ++ filename))) := by
  unfold handle_get_command handle_put_command handle_delete_command
  simp only [h, if_false]
  refine ⟨?_, ?_, ?_⟩
  · cases w.fopen_read (snprintf BUFFER_SIZE (root ++ bytes "/" ++ filename)) <;> rfl
  · cases w.fopen_write (snprintf BUFFER_SIZE (root ++ bytes "/" ++ filename)) <;> rfl
  · split_ifs <;> rfl

theorem dotdot_denied_when_path_fits (root filename : List Byte) (g : Globals) (w : World)
    (hfit : (root ++ bytes "/" ++ filename).length < BUFFER_SIZE)
    (hdots : bytes ".." <:+: filename) :
    handle_get_command root g w filename = send_response (bytes "550 Access denied.\r\n") ∧
    handle_put_command root g w filename = send_response (bytes "550 Access denied.\r\n") ∧
    handle_delete_command root w filename = send_response (bytes "550 Access denied.\r\n") := by
  apply handlers_denied
  rw [validate_path_eq_zero_iff]
  left
  have : snprintf BUFFER_SIZE (root ++ bytes "/" ++ filename) = root ++ bytes "/" ++ filename :=
    List.take_of_length_le (by omega)
  rw [this]
  exact hdots.trans (List.suffix_append _ _).isInfix

/-! ## Lemmas on the command loop -/

theorem handle_rename_command_transfer_type (g : Globals) (w : World) (buffer : List Byte) :
    (handle_rename_command g w buffer).1.transfer_type = g.transfer_type := by
  unfold handle_rename_command
  split_ifs
  · rfl
  · simp only
    split_ifs <;> rfl
  · rfl

theorem dispatch_transfer_type (root : List Byte) (g : Globals) (w : World)
    (buffer line : List Byte) (h : ¬ bytes "TYPE" <+: line) :
    (dispatch root g w (recv buffer line)).1.transfer_type = g.transfer_type := by
  rw [dispatch_recv]
  split_ifs <;> first | rfl | exact handle_rename_command_transfer_type g w _

theorem dispatch_old_name (root : List Byte) (g : Globals) (w : World)
    (buffer line : List Byte) (h : ¬ bytes "RNFR" <+: line) :
    (dispatch root g w (recv buffer line)).1.old_name = g.old_name := by
  have e7 := strncmp_recv buffer line (bytes "RNFR") 4 (by decide) (by decide)
  rw [dispatch_recv]
  split_ifs with h1 h2 h3 h4 h5 h6 h7
  any_goals rfl
  · unfold handle_type_command
    split_ifs <;> rfl
  · unfold handle_rename_command
    simp only [e7, h, if_false]
    split_ifs <;> rfl

theorem handle_client_loop_transfer_type (root : List Byte) (steps : List Step) :
    ∀ (g : Globals) (buffer : List Byte), (∀ s ∈ steps, ¬ bytes "TYPE" <+: s.line) →
      (handle_client_loop root steps g buffer).1.transfer_type = g.transfer_type := by
  induction steps with
  | nil => intro g buffer _; rfl
  | cons s rest ih =>
    intro g buffer h
    have hs : ¬ bytes "TYPE" <+: s.line.take (BUFFER_SIZE - 1) :=
      fun hp => h s (by simp) (hp.trans (List.take_prefix _ _))
    have hrest : ∀ s ∈ rest, ¬ bytes "TYPE" <+: s.line := fun x hx => h x (by simp [hx])
    have hd := dispatch_transfer_type root g s.world buffer _ hs
    unfold handle_client_loop
    simp only
    split_ifs
    · exact hd
    · simp only
      rw [ih _ _ hrest, hd]
    · rfl

theorem handle_client_loop_old_name (root : List Byte) (steps : List Step) :
    ∀ (g : Globals) (buffer : List Byte), (∀ s ∈ steps, ¬ bytes "RNFR" <+: s.line) →
      (handle_client_loop root steps g buffer).1.old_name = g.old_name := by
  induction steps with
  | nil => intro g buffer _; rfl
  | cons s rest ih =>
    intro g buffer h
    have hs : ¬ bytes "RNFR" <+: s.line.take (BUFFER_SIZE - 1) :=
      fun hp => h s (by simp) (hp.trans (List.take_prefix _ _))
    have hrest : ∀ s ∈ rest, ¬ bytes "RNFR" <+: s.line := fun x hx => h x (by simp [hx])
    have hd := dispatch_old_name root g s.world buffer _ hs
    unfold handle_client_loop
    simp only
    split_ifs
    · exact hd
    · simp only
      rw [ih _ _ hrest, hd]
    · rfl

theorem accept_loop_transfer_type (root : List Byte) (conns : List Conn) :
    ∀ g : Globals, (∀ c ∈ conns, ∀ s ∈ c.steps, ¬ bytes "TYPE" <+: s.line) →
      (accept_loop root conns g).1.transfer_type = g.transfer_type := by
  induction conns with
  | nil => intro g _; rfl
  | cons c rest ih =>
    intro g h
    have hc := handle_client_loop_transfer_type root c.steps g c.buffer (h c (by simp))
    have hrest : ∀ c ∈ rest, ∀ s ∈ c.steps, ¬ bytes "TYPE" <+: s.line :=
      fun x hx => h x (by simp [hx])
    unfold accept_loop
    simp only
    rw [ih _ hrest]
    exact hc

theorem accept_loop_old_name (root : List Byte) (conns : List Conn) :
    ∀ g : Globals, (∀ c ∈ conns, ∀ s ∈ c.steps, ¬ bytes "RNFR" <+: s.line) →
      (accept_loop root conns g).1.old_name = g.old_name := by
  induction conns with
  | nil => intro g _; rfl
  | cons c rest ih =>
    intro g h
    have hc := handle_client_loop_old_name root c.steps g c.buffer (h c (by simp))
    have hrest : ∀ c ∈ rest, ∀ s ∈ c.steps, ¬ bytes "RNFR" <+: s.line :=
      fun x hx => h x (by simp [hx])
    unfold accept_loop
    simp only
    rw [ih _ hrest]
    exact hc

theorem accept_loop_append (root : List Byte) (cs1 cs2 : List Conn) :
    ∀ g : Globals, accept_loop root (cs1 ++ cs2) g =
      ((accept_loop root cs2 (accept_loop root cs1 g).1).1,
        (accept_loop root cs1 g).2 ++ (accept_loop root cs2 (accept_loop root cs1 g).1).2) := by
  induction cs1 with
  | nil => intro g; simp [accept_loop]
  | cons c rest ih =>
    intro g
    have e : (c :: rest) ++ cs2 = c :: (rest ++ cs2) := rfl
    rw [e]
    simp only [accept_loop]
    rw [ih]
    simp

/-! ## Lemmas on the directory listing -/

theorem handle_list_command_opened (root : List Byte) (w : World) (entries : List (List Byte))
    (h : w.opendir root = some entries) :
    handle_list_command root w =
      [Event.write (bytes "150 Here comes the directory listing.\r\n"), Event.opendir root] ++
      entries.map (fun d_name => Event.write (snprintf BUFFER_SIZE (d_name ++ bytes "\r\n"))) ++
      [Event.closedir, Event.write (bytes "226 Directory send OK.\r\n")] := by
  unfold handle_list_command
  simp only [h, send_response]
  have e : ∀ l : List (List Byte),
      l.flatMap (fun d_name => [Event.write (snprintf BUFFER_SIZE (d_name ++ bytes "\r\n"))]) =
        l.map (fun d_name => Event.write (snprintf BUFFER_SIZE (d_name ++ bytes "\r\n"))) := by
    intro l
    induction l with
    | nil => rfl
    | cons x xs ih => simp [List.flatMap_cons, ih]
  rw [e]
  simp

theorem handle_list_command_failed (root : List Byte) (w : World) (h : w.opendir root = none) :
    handle_list_command root w =
      [Event.write (bytes "150 Here comes the directory listing.\r\n"), Event.opendir root,
       Event.write (bytes "550 Failed to open directory.\r\n"),
       Event.write (bytes "226 Directory send OK.\r\n")] := by
  unfold handle_list_command
  simp only [h, send_response]
  rfl

/-! ## Lemmas on sessions and connections -/

theorem snprintf_of_fit (l : List Byte) (h : l.length < BUFFER_SIZE) :
    snprintf BUFFER_SIZE l = l :=
  List.take_of_length_le (by omega)

theorem take_length_takeWhile (p : Byte → Bool) (l : List Byte) :
    l.take (l.takeWhile p).length = l.takeWhile p := by
  induction l with
  | nil => rfl
  | cons a as ih =>
    by_cases h : p a = true
    · simp [List.takeWhile_cons, h, ih]
    · simp [List.takeWhile_cons, h]

theorem takeWhile_cstr (rest : List Byte) :
    (cstr rest).takeWhile (fun c => !(bytes "\r\n").contains c) = line_argument rest := by
  induction rest with
  | nil => rfl
  | cons a as ih =>
    unfold cstr line_argument at ih ⊢
    by_cases h0 : a = 0
    · simp [List.takeWhile_cons, h0]
    · by_cases h1 : a = CR
      · simp [List.takeWhile_cons, h1, bytes, CR]
      · by_cases h2 : a = LF
        · simp [List.takeWhile_cons, h2, bytes, LF]
        · have h1' : ¬ a = 13 := h1
          have h2' : ¬ a = 10 := h2
          simp [List.takeWhile_cons, h0, h1, h2] at ih ⊢
          simp [bytes, h1', h2'] at ih ⊢
          exact ih

theorem cstr_length_le (mem : List Byte) : (cstr mem).length ≤ mem.length := by
  unfold cstr
  exact (List.takeWhile_sublist _).length_le

/-- The name `handle_rename_command` extracts from the command buffer. -/
theorem rename_argument_recv (buffer pre rest : List Byte) (hpre : pre.length = 5)
    (hfit : (pre ++ rest).length < BUFFER_SIZE) :
    (snprintf BUFFER_SIZE (cstr_at (recv buffer (pre ++ rest)) 5)).take
      (strcspn (snprintf BUFFER_SIZE (cstr_at (recv buffer (pre ++ rest)) 5)) (bytes "\r\n")) =
      line_argument rest := by
  have h5 := cstr_at_recv buffer pre rest 5 hpre
  have hl := cstr_length_le rest
  have hs : snprintf BUFFER_SIZE (cstr rest) = cstr rest :=
    snprintf_of_fit _ (by simp at hfit; omega)
  rw [h5, hs]
  unfold strcspn
  rw [take_length_takeWhile, takeWhile_cstr]

theorem dispatch_rnto (root : List Byte) (g : Globals) (w : World) (buffer : List Byte)
    (d : Byte) (rest : List Byte) (hfit : (bytes "RNTO" ++ d :: rest).length < BUFFER_SIZE) :
    dispatch root g w (recv buffer (bytes "RNTO" ++ d :: rest)) =
      (g, [Event.rename g.old_name (line_argument rest),
           Event.write (if w.rename g.old_name (line_argument rest) = 0
             then bytes "250 File renamed successfully.\r\n"
             else bytes "550 Rename failed.\r\n")], false) := by
  have harg := rename_argument_recv buffer (bytes "RNTO" ++ [d]) rest (by simp [bytes])
    (by simpa using hfit)
  have hline : bytes "RNTO" ++ [d] ++ rest = bytes "RNTO" ++ d :: rest := by simp
  rw [hline] at harg
  have e7 := strncmp_recv buffer (bytes "RNTO" ++ d :: rest) (bytes "RNFR") 4
    (by decide) (by decide)
  have e8 := strncmp_recv buffer (bytes "RNTO" ++ d :: rest) (bytes "RNTO") 4
    (by decide) (by decide)
  have n7 : ¬ bytes "RNFR" <+: bytes "RNTO" ++ d :: rest := by simp [bytes]
  have p8 : bytes "RNTO" <+: bytes "RNTO" ++ d :: rest := by simp [bytes]
  rw [dispatch_recv]
  simp only [handle_rename_command, e7, e8, n7, p8, harg]
  simp [bytes]
  split_ifs <;> simp [send_response]

theorem dispatch_rnfr (root : List Byte) (g : Globals) (w : World) (buffer : List Byte)
    (d : Byte) (rest : List Byte) (hfit : (bytes "RNFR" ++ d :: rest).length < BUFFER_SIZE) :
    dispatch root g w (recv buffer (bytes "RNFR" ++ d :: rest)) =
      ({ g with old_name := line_argument rest },
        [Event.write (bytes "350 Ready for destination name.\r\n")], false) := by
  have harg := rename_argument_recv buffer (bytes "RNFR" ++ [d]) rest (by simp [bytes])
    (by simpa using hfit)
  have hline : bytes "RNFR" ++ [d] ++ rest = bytes "RNFR" ++ d :: rest := by simp
  rw [hline] at harg
  have e7 := strncmp_recv buffer (bytes "RNFR" ++ d :: rest) (bytes "RNFR") 4
    (by decide) (by decide)
  have p7 : bytes "RNFR" <+: bytes "RNFR" ++ d :: rest := by simp [bytes]
  rw [dispatch_recv]
  simp only [handle_rename_command, e7, p7, harg]
  simp [bytes, send_response]

theorem dispatch_no_break (root : List Byte) (g : Globals) (w : World)
    (buffer line : List Byte) (h : ¬ bytes "QUIT" <+: line) :
    (dispatch root g w (recv buffer line)).2.2 = false := by
  rw [dispatch_recv]
  split_ifs <;> rfl

/-- The command loop on a first read that returns data and does not lead to
`break`. -/
theorem handle_client_loop_cons (root : List Byte) (s : Step) (more : List Step) (g : Globals)
    (buffer : List Byte) (hdata : s.line ≠ []) (hquit : ¬ bytes "QUIT" <+: s.line) :
    handle_client_loop root (s :: more) g buffer =
      ((handle_client_loop root more
          (dispatch root g s.world (recv buffer (s.line.take (BUFFER_SIZE - 1)))).1
          (recv buffer (s.line.take (BUFFER_SIZE - 1)))).1,
        (dispatch root g s.world (recv buffer (s.line.take (BUFFER_SIZE - 1)))).2.1 ++
        (handle_client_loop root more
          (dispatch root g s.world (recv buffer (s.line.take (BUFFER_SIZE - 1)))).1
          (recv buffer (s.line.take (BUFFER_SIZE - 1)))).2) := by
  have hq : ¬ bytes "QUIT" <+: s.line.take (BUFFER_SIZE - 1) :=
    fun hp => hquit (hp.trans (List.take_prefix _ _))
  have hb := dispatch_no_break root g s.world buffer _ hq
  have hlen : (s.line.take (BUFFER_SIZE - 1)).length > 0 := by
    cases hl : s.line with
    | nil => exact absurd hl hdata
    | cons a as => simp [BUFFER_SIZE]
  rw [handle_client_loop]
  simp only [hlen, if_true, hb]
  simp

/-- Commands that return data and are not QUIT are all executed: the loop goes
on with the steps that follow them. -/
theorem handle_client_loop_append (root : List Byte) (pre post : List Step) :
    ∀ (g : Globals) (buffer : List Byte),
      (∀ s ∈ pre, s.line ≠ [] ∧ ¬ bytes "QUIT" <+: s.line) →
      ∃ (g1 : Globals) (buffer1 : List Byte) (ev : List Event),
        handle_client_loop root (pre ++ post) g buffer =
          ((handle_client_loop root post g1 buffer1).1,
            ev ++ (handle_client_loop root post g1 buffer1).2) := by
  induction pre with
  | nil => intro g buffer _; exact ⟨g, buffer, [], by simp⟩
  | cons s rest ih =>
    intro g buffer h
    have hs := h s (by simp)
    have hrest : ∀ x ∈ rest, x.line ≠ [] ∧ ¬ bytes "QUIT" <+: x.line :=
      fun x hx => h x (by simp [hx])
    obtain ⟨g1, buffer1, ev, hev⟩ :=
      ih (dispatch root g s.world (recv buffer (s.line.take (BUFFER_SIZE - 1)))).1
        (recv buffer (s.line.take (BUFFER_SIZE - 1))) hrest
    refine ⟨g1, buffer1,
      (dispatch root g s.world (recv buffer (s.line.take (BUFFER_SIZE - 1)))).2.1 ++ ev, ?_⟩
    rw [List.cons_append, handle_client_loop_cons root s (rest ++ post) g buffer hs.1 hs.2, hev]
    simp

theorem main_append (cs1 cs2 : List Conn) :
    main (cs1 ++ cs2) =
      ((accept_loop restricted_dir cs2 (main cs1).1).1,
        (main cs1).2 ++ (accept_loop restricted_dir cs2 (main cs1).1).2) := by
  unfold main
  exact accept_loop_append restricted_dir cs1 cs2 Globals.init

theorem accept_loop_one (root : List Byte) (c : Conn) (g : Globals) :
    accept_loop root [c] g =
      ((handle_client_loop root c.steps g c.buffer).1,
        [Event.write (bytes "220 Welcome to Simple FTP Server\r\n")] ++
        (handle_client_loop root c.steps g c.buffer).2 ++ [Event.close]) := by
  simp [accept_loop, handle_client, send_response]

theorem old_name_after_rnfr (root : List Byte) (g : Globals) (buffer : List Byte)
    (pre after : List Step) (w : World) (d : Byte) (name : List Byte)
    (hfit : (bytes "RNFR" ++ d :: name).length < BUFFER_SIZE)
    (hpre : ∀ s ∈ pre, s.line ≠ [] ∧ ¬ bytes "QUIT" <+: s.line)
    (hafter : ∀ s ∈ after, ¬ bytes "RNFR" <+: s.line) :
    (handle_client_loop root (pre ++ ⟨bytes "RNFR" ++ d :: name, w⟩ :: after) g buffer).1.old_name
      = line_argument name := by
  obtain ⟨g1, buffer1, ev, hev⟩ :=
    handle_client_loop_append root pre (⟨bytes "RNFR" ++ d :: name, w⟩ :: after) g buffer hpre
  have htake : (bytes "RNFR" ++ d :: name).take (BUFFER_SIZE - 1) = bytes "RNFR" ++ d :: name :=
    List.take_of_length_le (by omega)
  have hcons := handle_client_loop_cons root ⟨bytes "RNFR" ++ d :: name, w⟩ after g1 buffer1
    (by simp [bytes]) (by simp [bytes])
  simp only [htake, dispatch_rnfr root g1 w buffer1 d name hfit] at hcons
  rw [hev, hcons]
  simp only
  rw [handle_client_loop_old_name root after _ _ hafter]

theorem dispatch_type (root : List Byte) (g : Globals) (w : World)
    (buffer : List Byte) (d c : Byte) (rest : List Byte) :
    dispatch root g w (recv buffer (bytes "TYPE" ++ d :: c :: rest)) =
      if c = 65 then
        ({ g with transfer_type := 1 },
          send_response (bytes "200 Type set to A (ASCII mode).\r\n"), false)
      else if c = 73 then
        ({ g with transfer_type := 0 },
          send_response (bytes "200 Type set to I (Binary mode).\r\n"), false)
      else (g, send_response (bytes "504 Command not implemented for that parameter.\r\n"),
        false) := by
  have h5 : cstr_at (recv buffer (bytes "TYPE" ++ d :: c :: rest)) 5 = cstr (c :: rest) := by
    have := cstr_at_recv buffer (bytes "TYPE" ++ [d]) (c :: rest) 5 (by simp [bytes])
    simpa using this
  have hA : strncmp (cstr (c :: rest)) (bytes "A") 1 = 0 ↔ c = 65 := by
    have := strncmp_cstr_eq_zero_iff (bytes "A") (by decide) (c :: rest)
    simp [bytes] at this ⊢
    rw [this]; exact eq_comm
  have hI : strncmp (cstr (c :: rest)) (bytes "I") 1 = 0 ↔ c = 73 := by
    have := strncmp_cstr_eq_zero_iff (bytes "I") (by decide) (c :: rest)
    simp [bytes] at this ⊢
    rw [this]; exact eq_comm
  rw [dispatch_recv]
  simp only [handle_type_command, h5, hA, hI]
  simp [bytes]
  split_ifs <;> rfl

theorem take_type_line (d c : Byte) (rest : List Byte) :
    (bytes "TYPE" ++ d :: c :: rest).take (BUFFER_SIZE - 1) =
      bytes "TYPE" ++ d :: c :: rest.take (BUFFER_SIZE - 7) := by
  simp [bytes, BUFFER_SIZE]

theorem transfer_type_after_type (root : List Byte) (g : Globals) (buffer : List Byte)
    (pre after : List Step) (w : World) (d c : Byte) (rest : List Byte)
    (hc : c = 65 ∨ c = 73)
    (hpre : ∀ s ∈ pre, s.line ≠ [] ∧ ¬ bytes "QUIT" <+: s.line)
    (hafter : ∀ s ∈ after, ¬ bytes "TYPE" <+: s.line) :
    (handle_client_loop root (pre ++ ⟨bytes "TYPE" ++ d :: c :: rest, w⟩ :: after) g
      buffer).1.transfer_type = if c = 65 then 1 else 0 := by
  obtain ⟨g1, buffer1, ev, hev⟩ :=
    handle_client_loop_append root pre (⟨bytes "TYPE" ++ d :: c :: rest, w⟩ :: after) g buffer hpre
  have hcons := handle_client_loop_cons root ⟨bytes "TYPE" ++ d :: c :: rest, w⟩ after g1 buffer1
    (by simp [bytes]) (by simp [bytes])
  have hd : (dispatch root g1 w
      (recv buffer1 (bytes "TYPE" ++ d :: c :: rest.take (BUFFER_SIZE - 7)))).1.transfer_type =
        if c = 65 then 1 else 0 := by
    rw [dispatch_type]
    rcases hc with h | h <;> subst h <;> simp
  simp only [take_type_line] at hcons
  rw [hev, hcons]
  simp only
  rw [handle_client_loop_transfer_type root after _ _ hafter, hd]

theorem main_old_name_after_rnfr (earlier later : List Conn) (buffer : List Byte)
    (pre after : List Step) (w : World) (d : Byte) (name : List Byte)
    (hfit : (bytes "RNFR" ++ d :: name).length < BUFFER_SIZE)
    (hpre : ∀ s ∈ pre, s.line ≠ [] ∧ ¬ bytes "QUIT" <+: s.line)
    (hafter : ∀ s ∈ after, ¬ bytes "RNFR" <+: s.line)
    (hlater : ∀ c ∈ later, ∀ s ∈ c.steps, ¬ bytes "RNFR" <+: s.line) :
    (main (earlier ++ [⟨buffer, pre ++ ⟨bytes "RNFR" ++ d :: name, w⟩ :: after⟩] ++ later)).1.old_name
      = line_argument name := by
  rw [main_append]
  simp only
  rw [accept_loop_old_name restricted_dir later _ hlater, main_append]
  simp only
  rw [accept_loop_one]
  exact old_name_after_rnfr restricted_dir _ buffer pre after w d name hfit hpre hafter

theorem main_transfer_type_after_type (earlier later : List Conn) (buffer : List Byte)
    (pre after : List Step) (w : World) (d c : Byte) (rest : List Byte)
    (hc : c = 65 ∨ c = 73)
    (hpre : ∀ s ∈ pre, s.line ≠ [] ∧ ¬ bytes "QUIT" <+: s.line)
    (hafter : ∀ s ∈ after, ¬ bytes "TYPE" <+: s.line)
    (hlater : ∀ c ∈ later, ∀ s ∈ c.steps, ¬ bytes "TYPE" <+: s.line) :
    (main (earlier ++ [⟨buffer, pre ++ ⟨bytes "TYPE" ++ d :: c :: rest, w⟩ :: after⟩] ++
      later)).1.transfer_type = if c = 65 then 1 else 0 := by
  rw [main_append]
  simp only
  rw [accept_loop_transfer_type restricted_dir later _ hlater, main_append]
  simp only
  rw [accept_loop_one]
  exact transfer_type_after_type restricted_dir _ buffer pre after w d c rest hc hpre hafter

/-! ## Claims -/

set_option maxRecDepth 1000000 in
/-- C1 (failing input). A path whose only `..` lies beyond what `snprintf` keeps
of the joined path is not denied: the three handlers go on to `fopen`/`unlink`
on the truncated path. -/
theorem dotdot_beyond_buffer_reaches_filesystem :
    (strstr (List.replicate 1004 97 ++ bytes "..\r\n") (bytes "..")).isSome = true ∧
    (bytes "DELE " ++ (List.replicate 1004 97 ++ bytes "..\r\n")).length ≤ BUFFER_SIZE - 1 ∧
    main [{ buffer := zero_buffer,
            steps := [⟨bytes "GET " ++ (List.replicate 1004 97 ++ bytes "..\r\n"), World.failing⟩,
                      ⟨bytes "PUT " ++ (List.replicate 1004 97 ++ bytes "..\r\n"), World.failing⟩,
                      ⟨bytes "DELE " ++ (List.replicate 1004 97 ++ bytes "..\r\n"),
                        World.failing⟩] }] =
      (Globals.init,
       [Event.write (bytes "220 Welcome to Simple FTP Server\r\n"),
        Event.fopen (bytes "/allowed_directory/" ++ List.replicate 1004 97) (bytes "rb"),
        Event.write (bytes "550 File not found or access denied.\r\n"),
        Event.fopen (bytes "/allowed_directory/" ++ List.replicate 1004 97) (bytes "wb"),
        Event.write (bytes "550 Cannot create file.\r\n"),
        Event.unlink (bytes "/allowed_directory/" ++ List.replicate 1004 97),
        Event.write (bytes "550 File not found or cannot delete.\r\n"),
        Event.close]) := by
  decide

/-- C2 (amended). Confinement is textual. For a user path whose join with the
root, `root/userPath`, fits the path buffer, `validate_path` returns 0 exactly
when the joined path contains `..`; in that case GET, PUT and DELE reply
`550 Access denied.` and do nothing else, and otherwise each of them goes on to
`fopen`/`unlink` on the joined path. -/
theorem confinement_is_textual (root filename : List Byte) (g : Globals) (w : World)
    (hfit : (root ++ bytes "/" ++ filename).length < BUFFER_SIZE) :
    (validate_path root (snprintf BUFFER_SIZE (root ++ bytes "/" ++ filename)) = 0 ↔
      bytes ".." <:+: root ++ bytes "/" ++ filename) ∧
    (bytes ".." <:+: root ++ bytes "/" ++ filename →
      handle_get_command root g w filename = send_response (bytes "550 Access denied.\r\n") ∧
      handle_put_command root g w filename = send_response (bytes "550 Access denied.\r\n") ∧
      handle_delete_command root w filename = send_response (bytes "550 Access denied.\r\n")) ∧
    (¬ bytes ".." <:+: root ++ bytes "/" ++ filename →
      (handle_get_command root g w filename).head? =
        some (Event.fopen (root ++ bytes "/" ++ filename)
          (if g.transfer_type = 0 then bytes "rb" else bytes "r")) ∧
      (handle_put_command root g w filename).head? =
        some (Event.fopen (root ++ bytes "/" ++ filename)
          (if g.transfer_type = 0 then bytes "wb" else bytes "w")) ∧
      (handle_delete_command root w filename).head? =
        some (Event.unlink (root ++ bytes "/" ++ filename))) := by
  have hroot : root.length < BUFFER_SIZE := by
    simp only [List.length_append] at hfit
    omega
  have hiff := validate_path_joined root filename hroot
  have hs := snprintf_of_fit (root ++ bytes "/" ++ filename) hfit
  rw [hs] at hiff
  refine ⟨by rw [hs]; exact hiff, ?_, ?_⟩
  · intro h
    exact handlers_denied root filename g w (by rw [hs]; exact hiff.2 h)
  · intro h
    have := handlers_proceed root filename g w (by rw [hs]; exact fun hv => h (hiff.1 hv))
    rw [hs] at this
    exact this

theorem confinement_is_textual_witness :
    (restricted_dir ++ bytes "/" ++ bytes "/etc/passwd").length < BUFFER_SIZE ∧
    validate_path restricted_dir
      (snprintf BUFFER_SIZE (restricted_dir ++ bytes "/" ++ bytes "/etc/passwd")) ≠ 0 ∧
    (handle_delete_command restricted_dir World.failing (bytes "/etc/passwd")).head? =
      some (Event.unlink (bytes "/allowed_directory//etc/passwd")) :=
  have h := confinement_is_textual restricted_dir (bytes "/etc/passwd") Globals.init
    World.failing (by decide)
  ⟨by decide, fun hv => absurd (h.1.1 hv) (by decide), (h.2.2 (by decide)).2.2⟩

/-- C2 (counterexample). The absolute path `/etc/passwd` passes confinement:
joined to the root it is `/allowed_directory//etc/passwd`, on which
`validate_path` returns 1, and GET, PUT and DELE go on to `fopen`/`unlink`
instead of replying `550 Access denied.`. -/
theorem absolute_path_accepted :
    validate_path restricted_dir
      (snprintf BUFFER_SIZE (restricted_dir ++ bytes "/" ++ bytes "/etc/passwd")) = 1 ∧
    handle_get_command restricted_dir Globals.init World.failing (bytes "/etc/passwd") =
      [Event.fopen (bytes "/allowed_directory//etc/passwd") (bytes "rb"),
       Event.write (bytes "550 File not found or access denied.\r\n")] ∧
    handle_put_command restricted_dir Globals.init World.failing (bytes "/etc/passwd") =
      [Event.fopen (bytes "/allowed_directory//etc/passwd") (bytes "wb"),
       Event.write (bytes "550 Cannot create file.\r\n")] ∧
    handle_delete_command restricted_dir (World.serving [] [] []) (bytes "/etc/passwd") =
      [Event.unlink (bytes "/allowed_directory//etc/passwd"),
       Event.write (bytes "250 File deleted successfully.\r\n")] := by
  decide

/-- C3 (failing input). The CR LF that ends the command line is part of the
path the handlers use: for `GET foo.txt`, `PUT foo.txt` and `DELE foo.txt` the
path given to `fopen`/`unlink` ends in CR LF. -/
theorem line_terminator_kept_in_path :
    spec_argument (bytes "GET foo.txt\r\n") = bytes "foo.txt" ∧
    main [{ buffer := zero_buffer,
            steps := [⟨bytes "GET foo.txt\r\n", World.failing⟩,
                      ⟨bytes "PUT foo.txt\r\n", World.failing⟩,
                      ⟨bytes "DELE foo.txt\r\n", World.failing⟩] }] =
      (Globals.init,
       [Event.write (bytes "220 Welcome to Simple FTP Server\r\n"),
        Event.fopen (bytes "/allowed_directory/foo.txt\r\n") (bytes "rb"),
        Event.write (bytes "550 File not found or access denied.\r\n"),
        Event.fopen (bytes "/allowed_directory/foo.txt\r\n") (bytes "wb"),
        Event.write (bytes "550 Cannot create file.\r\n"),
        Event.unlink (bytes "/allowed_directory/foo.txt\r\n"),
        Event.write (bytes "550 File not found or cannot delete.\r\n"),
        Event.close]) := by
  decide

/-- C4. For every file content and every way of splitting it into successive
non-empty reads of at most 1024 bytes, the bytes `handle_get_command` writes to
the client between its two replies are, in ASCII mode, the content with one CR
inserted immediately before every LF and every other byte unchanged, and in
Binary mode the content itself; the chunk boundaries play no part. -/
theorem get_data_independent_of_chunking (root filename : List Byte) (g : Globals) (w : World)
    (content : List Byte) (chunks : List (List Byte))
    (hvalid : validate_path root (snprintf BUFFER_SIZE (root ++ bytes "/" ++ filename)) = 1)
    (hopen : w.fopen_read (snprintf BUFFER_SIZE (root ++ bytes "/" ++ filename)) = some chunks)
    (hsplit : chunking chunks content) :
    (g.transfer_type = 1 →
      written (handle_get_command root g w filename) =
        bytes "150 Opening data connection.\r\n" ++ spec_encode_ascii content ++
          bytes "226 Transfer complete.\r\n") ∧
    (g.transfer_type = 0 →
      written (handle_get_command root g w filename) =
        bytes "150 Opening data connection.\r\n" ++ content ++
          bytes "226 Transfer complete.\r\n") := by
  obtain ⟨hflat, hchunks⟩ := hsplit
  subst hflat
  rw [handle_get_command_open root filename g w chunks hvalid hopen]
  constructor
  · intro hm
    simp [hm, written_append, written, written_get_while_loop_ascii chunks hchunks]
  · intro hm
    simp [hm, written_append, written, written_get_while_loop_binary chunks hchunks]

theorem get_data_independent_of_chunking_witness :
    written (handle_get_command restricted_dir { transfer_type := 1, old_name := [] }
        (World.serving [bytes "a\r", bytes "\nb\n"] [] []) (bytes "f")) =
      bytes "150 Opening data connection.\r\n" ++ spec_encode_ascii (bytes "a\r\nb\n") ++
        bytes "226 Transfer complete.\r\n" :=
  (get_data_independent_of_chunking restricted_dir (bytes "f")
    { transfer_type := 1, old_name := [] } (World.serving [bytes "a\r", bytes "\nb\n"] [] [])
    (bytes "a\r\nb\n") [bytes "a\r", bytes "\nb\n"] (by decide) rfl
    ⟨by decide, by decide⟩).1 rfl

/-- C5. ASCII-mode upload followed by ASCII-mode download is a round trip on
CRLF-normalized data: for every byte sequence `b` in which every LF is
immediately preceded by a CR and every CR immediately followed by an LF, however
the upload and the later file reads are chunked, `handle_put_command` stores `b`
with every CR dropped, which is `b` with each CRLF replaced by LF, and
`handle_get_command` on that stored content writes `b` again to the client. -/
theorem ascii_upload_download_round_trip (root filename : List Byte) (g : Globals)
    (wput wget : World) (b : List Byte) (up down : List (List Byte))
    (hmode : g.transfer_type = 1)
    (hvalid : validate_path root (snprintf BUFFER_SIZE (root ++ bytes "/" ++ filename)) = 1)
    (hb : crlf_paired b)
    (hcreate : wput.fopen_write (snprintf BUFFER_SIZE (root ++ bytes "/" ++ filename)) = true)
    (hup : wput.sock_read = up)
    (hupsplit : chunking up b)
    (hopen : wget.fopen_read (snprintf BUFFER_SIZE (root ++ bytes "/" ++ filename)) = some down)
    (hdownsplit : chunking down (stored (handle_put_command root g wput filename))) :
    stored (handle_put_command root g wput filename) = spec_decode_ascii b ∧
    stored (handle_put_command root g wput filename) = spec_crlf_to_lf b ∧
    written (handle_get_command root g wget filename) =
      bytes "150 Opening data connection.\r\n" ++ b ++ bytes "226 Transfer complete.\r\n" := by
  have hn : crlf_normalized b = true := crlf_normalized_of_paired b hb
  have hv : ¬ validate_path root (snprintf BUFFER_SIZE (root ++ bytes "/" ++ filename)) = 0 := by
    rw [hvalid]; decide
  have hput : stored (handle_put_command root g wput filename) = spec_decode_ascii b := by
    obtain ⟨hflat, hchunks⟩ := hupsplit
    unfold handle_put_command
    simp only [if_neg hv, hcreate, hup, hmode]
    simp [stored_append, send_response, stored, stored_put_while_loop_ascii up hchunks, hflat]
  refine ⟨hput, ?_, ?_⟩
  · rw [hput, decode_eq_crlf_to_lf b hn]
  · obtain ⟨hflat, hchunks⟩ := hdownsplit
    rw [handle_get_command_open root filename g wget down hvalid hopen, hmode]
    simp only [written_append, written_get_while_loop_ascii down hchunks, hflat, hput,
      encode_decode_normalized b hn]
    simp [written]

theorem ascii_upload_download_round_trip_witness :
    crlf_paired (bytes "a\r\nb") ∧
    stored (handle_put_command restricted_dir { transfer_type := 1, old_name := [] }
      (World.serving [] [bytes "a\r", bytes "\nb"] []) (bytes "foo.txt")) = bytes "a\nb" ∧
    written (handle_get_command restricted_dir { transfer_type := 1, old_name := [] }
      (World.serving [bytes "a\nb"] [] []) (bytes "foo.txt")) =
      bytes "150 Opening data connection.\r\n" ++ bytes "a\r\nb" ++
        bytes "226 Transfer complete.\r\n" :=
  have h := ascii_upload_download_round_trip restricted_dir (bytes "foo.txt")
    { transfer_type := 1, old_name := [] } (World.serving [] [bytes "a\r", bytes "\nb"] [])
    (World.serving [bytes "a\nb"] [] []) (bytes "a\r\nb") [bytes "a\r", bytes "\nb"]
    [bytes "a\nb"] rfl (by decide) (crlf_paired_of_normalized _ (by decide)) rfl rfl
    ⟨by decide, by decide⟩ rfl ⟨by decide, by decide⟩
  ⟨crlf_paired_of_normalized _ (by decide), h.2.1.trans (by decide), h.2.2⟩

/-- C6 (amended). A TYPE command is decided by the single byte at offset 5 of
the command buffer: `A` (65) sets ASCII mode and `I` (73) sets Binary mode, each
with a `200` reply, whatever follows that byte; any other byte at that place
gives `504 Command not implemented for that parameter.` and leaves the statics
unchanged. -/
theorem type_command_first_byte (root : List Byte) (g : Globals) (w : World)
    (buffer : List Byte) (d c : Byte) (rest : List Byte) :
    dispatch root g w (recv buffer (bytes "TYPE" ++ d :: c :: rest)) =
      if c = 65 then
        ({ g with transfer_type := 1 },
          send_response (bytes "200 Type set to A (ASCII mode).\r\n"), false)
      else if c = 73 then
        ({ g with transfer_type := 0 },
          send_response (bytes "200 Type set to I (Binary mode).\r\n"), false)
      else (g, send_response (bytes "504 Command not implemented for that parameter.\r\n"),
        false) := by
  have h5 : cstr_at (recv buffer (bytes "TYPE" ++ d :: c :: rest)) 5 = cstr (c :: rest) := by
    have := cstr_at_recv buffer (bytes "TYPE" ++ [d]) (c :: rest) 5 (by simp [bytes])
    simpa using this
  have hA : strncmp (cstr (c :: rest)) (bytes "A") 1 = 0 ↔ c = 65 := by
    have := strncmp_cstr_eq_zero_iff (bytes "A") (by decide) (c :: rest)
    simp [bytes] at this ⊢
    rw [this]; exact eq_comm
  have hI : strncmp (cstr (c :: rest)) (bytes "I") 1 = 0 ↔ c = 73 := by
    have := strncmp_cstr_eq_zero_iff (bytes "I") (by decide) (c :: rest)
    simp [bytes] at this ⊢
    rw [this]; exact eq_comm
  rw [dispatch_recv]
  simp only [handle_type_command, h5, hA, hI]
  simp [bytes]
  split_ifs <;> rfl

/-- C6 (counterexample). The line `TYPE AB` has the argument `AB`, which is
neither `A` nor `I`, yet the server replies `200 Type set to A (ASCII mode).`
and the transfer mode goes from Binary to ASCII. -/
theorem type_argument_not_exact :
    spec_argument (bytes "TYPE AB\r\n") = bytes "AB" ∧
    bytes "AB" ≠ bytes "A" ∧ bytes "AB" ≠ bytes "I" ∧
    main [{ buffer := zero_buffer, steps := [⟨bytes "TYPE AB\r\n", World.failing⟩] }] =
      ({ transfer_type := 1, old_name := [] },
       [Event.write (bytes "220 Welcome to Simple FTP Server\r\n"),
        Event.write (bytes "200 Type set to A (ASCII mode).\r\n"),
        Event.close]) := by
  decide

/-- C7 (amended). An RNTO command always calls `rename`, whether or not an RNFR
was received: the source is the static `old_name`, the destination is the
argument of the RNTO line up to its first NUL, CR or LF, and the reply is
`250 File renamed successfully.` when the call returns 0 and `550 Rename
failed.` otherwise. `old_name` belongs to the process, not to the session: an
RNTO that opens a connection is run on the `old_name` the earlier connections
left, which is the empty string when no command line so far began with `RNFR`
and otherwise the argument of the last executed RNFR. -/
theorem rnto_renames_from_static_old_name (conns : List Conn) (buffer : List Byte) (w : World)
    (more : List Step) (d : Byte) (rest : List Byte)
    (hfit : (bytes "RNTO" ++ d :: rest).length < BUFFER_SIZE) :
    (∀ (root : List Byte) (g : Globals),
      dispatch root g w (recv buffer (bytes "RNTO" ++ d :: rest)) =
        (g, [Event.rename g.old_name (line_argument rest),
             Event.write (if w.rename g.old_name (line_argument rest) = 0
               then bytes "250 File renamed successfully.\r\n"
               else bytes "550 Rename failed.\r\n")], false)) ∧
    main (conns ++ [⟨buffer, ⟨bytes "RNTO" ++ d :: rest, w⟩ :: more⟩]) =
      ((handle_client_loop restricted_dir more (main conns).1
          (recv buffer (bytes "RNTO" ++ d :: rest))).1,
        (main conns).2 ++
        [Event.write (bytes "220 Welcome to Simple FTP Server\r\n"),
         Event.rename (main conns).1.old_name (line_argument rest),
         Event.write (if w.rename (main conns).1.old_name (line_argument rest) = 0
           then bytes "250 File renamed successfully.\r\n"
           else bytes "550 Rename failed.\r\n")] ++
        (handle_client_loop restricted_dir more (main conns).1
          (recv buffer (bytes "RNTO" ++ d :: rest))).2 ++
        [Event.close]) ∧
    ((∀ c ∈ conns, ∀ s ∈ c.steps, ¬ bytes "RNFR" <+: s.line) → (main conns).1.old_name = []) ∧
    (∀ (earlier later : List Conn) (buffer0 : List Byte) (pre after : List Step) (w0 : World)
        (d0 : Byte) (name : List Byte),
      conns = earlier ++ [⟨buffer0, pre ++ ⟨bytes "RNFR" ++ d0 :: name, w0⟩ :: after⟩] ++ later →
      (bytes "RNFR" ++ d0 :: name).length < BUFFER_SIZE →
      (∀ s ∈ pre, s.line ≠ [] ∧ ¬ bytes "QUIT" <+: s.line) →
      (∀ s ∈ after, ¬ bytes "RNFR" <+: s.line) →
      (∀ c ∈ later, ∀ s ∈ c.steps, ¬ bytes "RNFR" <+: s.line) →
      (main conns).1.old_name = line_argument name) := by
  refine ⟨fun root g => dispatch_rnto root g w buffer d rest hfit, ?_,
    fun h => accept_loop_old_name restricted_dir conns Globals.init h, ?_⟩
  · have htake : (bytes "RNTO" ++ d :: rest).take (BUFFER_SIZE - 1) = bytes "RNTO" ++ d :: rest :=
      List.take_of_length_le (by omega)
    have hcons := handle_client_loop_cons restricted_dir ⟨bytes "RNTO" ++ d :: rest, w⟩ more
      (main conns).1 buffer (by simp [bytes]) (by simp [bytes])
    simp only [htake, dispatch_rnto restricted_dir (main conns).1 w buffer d rest hfit] at hcons
    rw [main_append, accept_loop_one]
    simp only [hcons]
    simp
  · intro earlier later buffer0 pre after w0 d0 name hconns hfit0 hpre hafter hlater
    rw [hconns]
    exact main_old_name_after_rnfr earlier later buffer0 pre after w0 d0 name hfit0 hpre hafter
      hlater

theorem rnto_renames_from_static_old_name_witness :
    (bytes "RNTO" ++ 32 :: bytes "b\r\n").length < BUFFER_SIZE ∧
    (main [{ buffer := zero_buffer,
             steps := [⟨bytes "USER u\r\n", World.failing⟩,
                       ⟨bytes "RNFR" ++ 32 :: bytes "a\r\n", World.failing⟩] }]).1.old_name =
      bytes "a" ∧
    main ([{ buffer := zero_buffer,
             steps := [⟨bytes "USER u\r\n", World.failing⟩,
                       ⟨bytes "RNFR" ++ 32 :: bytes "a\r\n", World.failing⟩] }] ++
          [{ buffer := zero_buffer,
             steps := [⟨bytes "RNTO" ++ 32 :: bytes "b\r\n", World.serving [] [] []⟩] }]) =
      ({ transfer_type := 0, old_name := bytes "a" },
       [Event.write (bytes "220 Welcome to Simple FTP Server\r\n"),
        Event.write (bytes "331 Username OK, need password.\r\n"),
        Event.write (bytes "350 Ready for destination name.\r\n"),
        Event.close,
        Event.write (bytes "220 Welcome to Simple FTP Server\r\n"),
        Event.rename (bytes "a") (bytes "b"),
        Event.write (bytes "250 File renamed successfully.\r\n"),
        Event.close]) :=
  have h := rnto_renames_from_static_old_name
    [{ buffer := zero_buffer,
       steps := [⟨bytes "USER u\r\n", World.failing⟩,
                 ⟨bytes "RNFR" ++ 32 :: bytes "a\r\n", World.failing⟩] }]
    zero_buffer (World.serving [] [] []) [] 32 (bytes "b\r\n") (by decide)
  ⟨by decide,
    (h.2.2.2 [] [] zero_buffer [⟨bytes "USER u\r\n", World.failing⟩] [] World.failing 32
      (bytes "a\r\n") rfl (by decide) (by decide) (by decide) (by decide)).trans (by decide),
    h.2.1.trans (by decide)⟩

/-- C7 (counterexample). When the first command of the process is an RNTO, so
that no RNFR was received before it, `rename` is called all the same, with the
empty string as source. When a connection starts with an RNTO after an earlier
connection sent an RNFR, `rename` is called with the name left by that earlier
connection and, if the call succeeds, the reply is `250 File renamed
successfully.`. -/
theorem rnto_without_rnfr_calls_rename :
    main [{ buffer := zero_buffer, steps := [⟨bytes "RNTO b\r\n", World.failing⟩] }] =
      (Globals.init,
       [Event.write (bytes "220 Welcome to Simple FTP Server\r\n"),
        Event.rename [] (bytes "b"),
        Event.write (bytes "550 Rename failed.\r\n"),
        Event.close]) ∧
    main [{ buffer := zero_buffer, steps := [⟨bytes "RNFR a\r\n", World.failing⟩] },
          { buffer := zero_buffer,
            steps := [⟨bytes "RNTO b\r\n", World.serving [] [] []⟩] }] =
      ({ transfer_type := 0, old_name := bytes "a" },
       [Event.write (bytes "220 Welcome to Simple FTP Server\r\n"),
        Event.write (bytes "350 Ready for destination name.\r\n"),
        Event.close,
        Event.write (bytes "220 Welcome to Simple FTP Server\r\n"),
        Event.rename (bytes "a") (bytes "b"),
        Event.write (bytes "250 File renamed successfully.\r\n"),
        Event.close]) := by
  decide

/-- C8 (amended). For every command line that starts with none of the literals
the dispatcher compares the buffer with (the four bytes `USER`, `PASS`, `LIST`,
`GET `, `PUT `, `TYPE`, `RNFR`, `RNTO`, `QUIT` and the five bytes `DELE `), the
dispatcher replies exactly `502 Command not implemented.`, leaves the statics
unchanged and stays in the command loop. -/
theorem unmatched_prefix_gets_502 (root : List Byte) (g : Globals) (w : World)
    (buffer line : List Byte) (h : ∀ p ∈ command_prefixes, ¬ p <+: line) :
    dispatch root g w (recv buffer line) =
      (g, send_response (bytes "502 Command not implemented.\r\n"), false) := by
  rw [dispatch_recv]
  have h1 := h (bytes "USER") (by simp [command_prefixes])
  have h2 := h (bytes "PASS") (by simp [command_prefixes])
  have h3 := h (bytes "LIST") (by simp [command_prefixes])
  have h4 := h (bytes "GET ") (by simp [command_prefixes])
  have h5 := h (bytes "PUT ") (by simp [command_prefixes])
  have h6 := h (bytes "TYPE") (by simp [command_prefixes])
  have h7 := h (bytes "RNFR") (by simp [command_prefixes])
  have h8 := h (bytes "RNTO") (by simp [command_prefixes])
  have h9 := h (bytes "DELE ") (by simp [command_prefixes])
  have h10 := h (bytes "QUIT") (by simp [command_prefixes])
  simp only [h1, h2, h3, h4, h5, h6, h7, h8, h9, h10, if_false, or_self]

theorem unmatched_prefix_gets_502_witness :
    dispatch restricted_dir { transfer_type := 1, old_name := bytes "a" } World.failing
        (recv zero_buffer (bytes "FOO")) =
      ({ transfer_type := 1, old_name := bytes "a" },
        send_response (bytes "502 Command not implemented.\r\n"), false) :=
  unmatched_prefix_gets_502 restricted_dir { transfer_type := 1, old_name := bytes "a" }
    World.failing zero_buffer (bytes "FOO") (by decide)

/-- C8 (counterexample). The verb of the line `TYPEXA` is `TYPEXA`, which is not
in the command set, yet the reply is `200 Type set to A (ASCII mode).` and the
transfer mode changes from Binary to ASCII. -/
theorem unknown_verb_dispatched_by_prefix :
    spec_verb (bytes "TYPEXA\r\n") = bytes "TYPEXA" ∧
    bytes "TYPEXA" ∉ spec_verbs ∧
    main [{ buffer := zero_buffer, steps := [⟨bytes "TYPEXA\r\n", World.failing⟩] }] =
      ({ transfer_type := 1, old_name := [] },
       [Event.write (bytes "220 Welcome to Simple FTP Server\r\n"),
        Event.write (bytes "200 Type set to A (ASCII mode).\r\n"),
        Event.close]) := by
  decide

/-- C9 (amended). The transfer mode is a static of the process that
`handle_client` never resets. The first command of a connection is dispatched on
the statics the earlier connections left. These hold mode ASCII (1) when the
last executed command line beginning with `TYPE` had `A` at offset 5, mode
Binary (0) when it had `I` there, and mode Binary when no command line so far
began with `TYPE`. -/
theorem transfer_mode_carried_across_connections (conns : List Conn) (buffer line : List Byte)
    (w : World) (more : List Step) (hline : line ≠ []) (hquit : ¬ bytes "QUIT" <+: line) :
    main (conns ++ [⟨buffer, ⟨line, w⟩ :: more⟩]) =
      ((handle_client_loop restricted_dir more
          (dispatch restricted_dir (main conns).1 w
            (recv buffer (line.take (BUFFER_SIZE - 1)))).1
          (recv buffer (line.take (BUFFER_SIZE - 1)))).1,
        (main conns).2 ++
        [Event.write (bytes "220 Welcome to Simple FTP Server\r\n")] ++
        (dispatch restricted_dir (main conns).1 w
          (recv buffer (line.take (BUFFER_SIZE - 1)))).2.1 ++
        (handle_client_loop restricted_dir more
          (dispatch restricted_dir (main conns).1 w
            (recv buffer (line.take (BUFFER_SIZE - 1)))).1
          (recv buffer (line.take (BUFFER_SIZE - 1)))).2 ++
        [Event.close]) ∧
    (∀ (earlier later : List Conn) (buffer0 : List Byte) (pre after : List Step) (w0 : World)
        (d c : Byte) (rest : List Byte),
      conns = earlier ++ [⟨buffer0, pre ++ ⟨bytes "TYPE" ++ d :: c :: rest, w0⟩ :: after⟩] ++
        later →
      (c = 65 ∨ c = 73) →
      (∀ s ∈ pre, s.line ≠ [] ∧ ¬ bytes "QUIT" <+: s.line) →
      (∀ s ∈ after, ¬ bytes "TYPE" <+: s.line) →
      (∀ c' ∈ later, ∀ s ∈ c'.steps, ¬ bytes "TYPE" <+: s.line) →
      (main conns).1.transfer_type = if c = 65 then 1 else 0) ∧
    ((∀ c' ∈ conns, ∀ s ∈ c'.steps, ¬ bytes "TYPE" <+: s.line) →
      (main conns).1.transfer_type = 0) := by
  refine ⟨?_, ?_, fun h => accept_loop_transfer_type restricted_dir conns Globals.init h⟩
  · have hcons := handle_client_loop_cons restricted_dir ⟨line, w⟩ more (main conns).1 buffer
      hline hquit
    rw [main_append, accept_loop_one]
    simp only [hcons]
    simp
  · intro earlier later buffer0 pre after w0 d c rest hconns hc hpre hafter hlater
    rw [hconns]
    exact main_transfer_type_after_type earlier later buffer0 pre after w0 d c rest hc hpre
      hafter hlater

theorem transfer_mode_carried_across_connections_witness :
    (main [{ buffer := zero_buffer,
             steps := [⟨bytes "USER u\r\n", World.failing⟩,
                       ⟨bytes "TYPE" ++ 32 :: 65 :: bytes "\r\n", World.failing⟩,
                       ⟨bytes "LIST\r\n", World.failing⟩] }]).1.transfer_type = 1 ∧
    main ([{ buffer := zero_buffer,
             steps := [⟨bytes "USER u\r\n", World.failing⟩,
                       ⟨bytes "TYPE" ++ 32 :: 65 :: bytes "\r\n", World.failing⟩,
                       ⟨bytes "LIST\r\n", World.failing⟩] }] ++
          [{ buffer := zero_buffer,
             steps := [⟨bytes "GET f", World.serving [bytes "x\n"] [] []⟩] }]) =
      ({ transfer_type := 1, old_name := [] },
       [Event.write (bytes "220 Welcome to Simple FTP Server\r\n"),
        Event.write (bytes "331 Username OK, need password.\r\n"),
        Event.write (bytes "200 Type set to A (ASCII mode).\r\n"),
        Event.write (bytes "150 Here comes the directory listing.\r\n"),
        Event.opendir (bytes "/allowed_directory"),
        Event.write (bytes "550 Failed to open directory.\r\n"),
        Event.write (bytes "226 Directory send OK.\r\n"),
        Event.close,
        Event.write (bytes "220 Welcome to Simple FTP Server\r\n"),
        Event.fopen (bytes "/allowed_directory/f") (bytes "r"),
        Event.write (bytes "150 Opening data connection.\r\n"),
        Event.write (bytes "x"), Event.write (bytes "\r"), Event.write (bytes "\n"),
        Event.fclose,
        Event.write (bytes "226 Transfer complete.\r\n"),
        Event.close]) :=
  have h := transfer_mode_carried_across_connections
    [{ buffer := zero_buffer,
       steps := [⟨bytes "USER u\r\n", World.failing⟩,
                 ⟨bytes "TYPE" ++ 32 :: 65 :: bytes "\r\n", World.failing⟩,
                 ⟨bytes "LIST\r\n", World.failing⟩] }]
    zero_buffer (bytes "GET f") (World.serving [bytes "x\n"] [] []) [] (by decide) (by decide)
  ⟨(h.2.1 [] [] zero_buffer [⟨bytes "USER u\r\n", World.failing⟩]
      [⟨bytes "LIST\r\n", World.failing⟩] World.failing 32 65 (bytes "\r\n") rfl (Or.inl rfl)
      (by decide) (by decide) (by decide)).trans (by decide),
    h.1.trans (by decide)⟩

/-- C9 (counterexample). After a first connection that sent `TYPE A`, the first
command of the next connection runs in ASCII mode: its GET opens the file in
mode `r` and inserts a CR before the LF. -/
theorem type_a_survives_disconnect :
    (main [{ buffer := zero_buffer,
             steps := [⟨bytes "TYPE A\r\n", World.failing⟩] }]).1.transfer_type = 1 ∧
    main [{ buffer := zero_buffer, steps := [⟨bytes "TYPE A\r\n", World.failing⟩] },
          { buffer := zero_buffer,
            steps := [⟨bytes "GET f", World.serving [bytes "x\n"] [] []⟩] }] =
      ({ transfer_type := 1, old_name := [] },
       [Event.write (bytes "220 Welcome to Simple FTP Server\r\n"),
        Event.write (bytes "200 Type set to A (ASCII mode).\r\n"),
        Event.close,
        Event.write (bytes "220 Welcome to Simple FTP Server\r\n"),
        Event.fopen (bytes "/allowed_directory/f") (bytes "r"),
        Event.write (bytes "150 Opening data connection.\r\n"),
        Event.write (bytes "x"), Event.write (bytes "\r"), Event.write (bytes "\n"),
        Event.fclose,
        Event.write (bytes "226 Transfer complete.\r\n"),
        Event.close]) := by
  decide

/-- C10 (failing input). When `opendir` fails, LIST sends the `150` reply, then
`550 Failed to open directory.`, and then still `226 Directory send OK.`. -/
theorem list_failure_still_sends_226 :
    main [{ buffer := zero_buffer, steps := [⟨bytes "LIST\r\n", World.failing⟩] }] =
      (Globals.init,
       [Event.write (bytes "220 Welcome to Simple FTP Server\r\n"),
        Event.write (bytes "150 Here comes the directory listing.\r\n"),
        Event.opendir (bytes "/allowed_directory"),
        Event.write (bytes "550 Failed to open directory.\r\n"),
        Event.write (bytes "226 Directory send OK.\r\n"),
        Event.close]) := by
  decide

end FTPserver
